import Mathlib

/-!
Verification of the aws-s3-toolkit bulk-transfer subsystem.

The Python sources (`src/hash_utils.py`, `src/s3_utils.py`,
`src/upload_dir_contents_to_S3_bucket.py`, `src/download_S3_bucket.py`,
`src/create_s3_bucket.py`) are shallowly embedded below.

Modelling conventions:
* Paths and file contents are `List Char` (exact Python string semantics,
  `os.path` helpers are reimplemented faithfully for POSIX).
* The local filesystem is an association list from path to content; writing
  a path shadows the previous entry, `os.remove` drops it.
* `os.path.realpath` is modelled as the identity: the model has no symlinks
  and theorems carry explicit normalisation hypotheses where path
  normalisation matters.
* The blake2b digest of `hash_utils.get_hash` is a parameter
  `h : List Char → List Char`; the only facts about it that the code relies
  on are determinism (automatic for a Lean function) and that a hex digest
  contains only lowercase hex characters, which enters as a hypothesis on
  the relevant inputs.
* Fallible operations return `Except PyExc`; an uncaught Python exception is
  an `Except.error`.  Where a batch loop's partial side effects matter the
  error value carries the state at the moment of the raise.
* Network effects (boto3 uploads/downloads, HeadBucket) are parametrised by
  success predicates, and the bucket is the list of keys stored so far.
-/

set_option autoImplicit false
set_option synthInstance.maxSize 1024

namespace S3Toolkit

/-- A Python string (path or file content), modelled character by character. -/
abbrev Path := List Char

/-- The local filesystem: an association list from path to file content.
The most recent write is first. -/
abbrev FS := List (Path × Path)

/-- Uncaught Python exceptions that the modelled code can raise. -/
inductive PyExc where
  /-- Python OSError and IOError: open/mkdir/local-file failures. -/
  | ioError
  /-- boto3 transfer failure while uploading or downloading an object. -/
  | transferError
  /-- an exception of a class not matched by any `except` clause in scope. -/
  | nonClientError
deriving DecidableEq, Repr

/-- Look a path up in the filesystem (Python `open(p, "r")` succeeds iff this
is `some`). -/
def lookupFS : FS → Path → Option Path
  | [], _ => none
  | (k, v) :: rest, p => if k = p then some v else lookupFS rest p

/-- Write a file (Python `open(p, "w+")` followed by `write`): the new entry
shadows any previous one. -/
def writeFS (fs : FS) (p v : Path) : FS := (p, v) :: fs

/-- Remove a file (Python `os.remove`): drops every entry for the path. -/
def removeFS (fs : FS) (p : Path) : FS := fs.filter (fun kv => kv.1 ≠ p)

/-- Everything after the last slash of a path (`os.path.basename`, and the
tail used by `os.path.splitext`). -/
def takeAfterLastSlash (p : Path) : Path :=
  (p.reverse.takeWhile (fun c => c ≠ '/')).reverse

/-- os.path.basename. -/
def basename (p : Path) : Path := takeAfterLastSlash p

/-- The head part of `os.path.split`: everything up to and including the last
slash (empty when the path has no slash). -/
def rawHead (p : Path) : Path :=
  (p.reverse.dropWhile (fun c => c ≠ '/')).reverse

/-- os.path.dirname: the head part with trailing slashes stripped, unless it
consists only of slashes. -/
def dirname (p : Path) : Path :=
  let h := rawHead p
  if h ≠ [] ∧ h.any (fun c => c ≠ '/') then
    (h.reverse.dropWhile (fun c => c = '/')).reverse
  else h

/-- os.path.join for exactly two POSIX components, as CPython implements it. -/
def pathJoin (a b : Path) : Path :=
  if b.head? = some '/' then b
  else if a = [] ∨ a.getLast? = some '/' then a ++ b
  else a ++ '/' :: b

/-- Python `str.split(sep)` for a single-character separator: always returns
at least one field, keeps empty fields. -/
def splitOnChar (sep : Char) : Path → List Path
  | [] => [[]]
  | c :: cs =>
    match splitOnChar sep cs with
    | [] => [[]]
    | r :: rs => if c = sep then [] :: r :: rs else (c :: r) :: rs

/-- Python `f.readline()` on the whole content: the prefix up to and
including the first newline. -/
def readline : Path → Path
  | [] => []
  | c :: cs => if c = '\n' then ['\n'] else c :: readline cs

/-- The digest function of `hash_utils.get_hash` (blake2b hexdigest),
abstracted over the file content.  The code relies only on determinism and on
a hexdigest containing neither the separator nor a newline, which enters as a
hypothesis where needed. -/
abbrev HashFn := List Char → List Char

/-- hash_utils.HASHFILE_PART_SEP: the single-character field separator of the
integrity artifact format. -/
def HASHFILE_PART_SEP : Char := ':'

/-- The literal `".hash"` suffix appended to a data file's path to name its
integrity artifact. -/
def hashExt : Path := ['.', 'h', 'a', 's', 'h']

/-- hash_utils.get_hash: opens the file (raising `IOError` when that is
impossible) and returns the hex digest of its content. -/
def get_hash (h : HashFn) (fs : FS) (filepath : Path) : Except PyExc Path :=
  match lookupFS fs filepath with
  | none => .error .ioError
  | some data => .ok (h data)

/-- hash_utils.create_integrity_hash_file: writes
`basename(F) : digest(F)` to `F ++ ".hash"` and returns that artifact path;
when the artifact cannot be written (`w` is false on it) the bare `except:`
catches, prints, and the function returns the empty string with the
filesystem unchanged.  `realpath` is the identity in the model. -/
def create_integrity_hash_file (h : HashFn) (w : Path → Bool) (fs : FS)
    (filepath : Path) : Except PyExc (FS × Path) :=
  let real_path := filepath
  let filename := basename real_path
  match get_hash h fs real_path with
  | .error e => .error e
  | .ok file_hash =>
    let hash_filepath := real_path ++ hashExt
    if w hash_filepath then
      .ok (writeFS fs hash_filepath (filename ++ HASHFILE_PART_SEP :: file_hash),
           hash_filepath)
    else
      .ok (fs, [])

/-- hash_utils.verify_hash: recompute the digest of `filepath` and compare it
with the recorded one. -/
def verify_hash (h : HashFn) (fs : FS) (filepath expected_hash : Path) :
    Except PyExc Bool :=
  match get_hash h fs filepath with
  | .error e => .error e
  | .ok computed_hash => .ok (computed_hash = expected_hash)

/-- hash_utils.verify_integrity_hash_file: read the artifact's first line,
split it on `HASHFILE_PART_SEP`; with a field count other than two report the
malformed artifact and return `false`; otherwise resolve the named data file
next to the artifact and compare digests. -/
def verify_integrity_hash_file (h : HashFn) (fs : FS) (hash_filepath : Path) :
    Except PyExc Bool :=
  match lookupFS fs hash_filepath with
  | none => .error .ioError
  | some content =>
    let line := readline content
    match splitOnChar HASHFILE_PART_SEP line with
    | [part0, part1] =>
      let filepath := pathJoin (dirname hash_filepath) part0
      verify_hash h fs filepath part1
    | _ => .ok false

/-! ### s3_utils.check_bucket -/

/-- The possible outcomes of the `head_bucket` existence probe: a successful
response, an error response surfaced as `botocore.exceptions.ClientError`
(HTTP 404/403 and friends), or an exception of any other class (for example
a connection-level `EndpointConnectionError`, which is a `BotoCoreError`,
not a `ClientError`). -/
inductive ProbeResult where
  | success
  | clientError
  | otherExc
deriving DecidableEq, Repr

/-- s3_utils.check_bucket: `head_bucket` in a `try` whose only handler is
`except botocore.exceptions.ClientError: return False`; an exception of any
other class is not caught and propagates to the caller. -/
def check_bucket : ProbeResult → Except PyExc Bool
  | .success => .ok true
  | .clientError => .ok false
  | .otherExc => .error .nonClientError

/-! ### create_s3_bucket.create_bucket (request construction) -/

/-- commons.AwsRegions.US_EAST1. -/
def US_EAST1 : String := "us-east-1"

/-- The CreateBucket request that `create_bucket` issues: the bucket name and
the optional `LocationConstraint` attribute of the
`CreateBucketConfiguration`. -/
structure CreateBucketRequest where
  bucket : String
  locationConstraint : Option String
deriving DecidableEq, Repr

/-- create_s3_bucket.create_bucket, lines 50-75: the `assert` on the bucket
name (`none` models an `AssertionError`) followed by the request
construction.  The guard is the Python condition
`region and (region != commons.AwsRegions.US_EAST1)`, where a `None` or
empty-string region is falsy, so only a non-empty region different from
us-east-1 puts a `LocationConstraint` into the request. -/
def create_bucket (bucket_name : String) (region : Option String) :
    Option CreateBucketRequest :=
  if bucket_name.length > 0 then
    match region with
    | some r =>
      if r ≠ "" ∧ r ≠ US_EAST1 then
        some { bucket := bucket_name, locationConstraint := some r }
      else
        some { bucket := bucket_name, locationConstraint := none }
    | none => some { bucket := bucket_name, locationConstraint := none }
  else
    none

/-! ### upload_dir_contents_to_S3_bucket.S3FileUploader

The bucket is modelled as the list of keys stored so far; `up k` says whether
the boto3 transfer of key `k` succeeds, `w p` whether the local path `p` can
be written.  Errors carry the filesystem and bucket state at the moment the
exception is raised, since the Python exceptions propagate after the earlier
side effects have happened. -/

/-- The keys stored in the S3 bucket, most recent first. -/
abbrev S3Keys := List Path

/-- S3FileUploader._upload_file_to_s3_bucket with `calc_hash = True`:
upload the data object under its basename, create the integrity artifact
(write failures swallowed inside `create_integrity_hash_file`), upload the
artifact file from `real_path + ".hash"` (an `IOError` if that local file
does not exist, as boto3 raises on a missing `Filename`), then
`os.remove` the artifact path returned by the create call, with any removal
failure caught and only printed. -/
def _upload_file_to_s3_bucket (h : HashFn) (up : Path → Bool) (w : Path → Bool)
    (fs : FS) (s3 : S3Keys) (file_path : Path) :
    Except (PyExc × FS × S3Keys) (FS × S3Keys) :=
  let real_path := file_path
  let filename := basename real_path
  match lookupFS fs real_path with
  | none => .error (.ioError, fs, s3)
  | some _ =>
    if up filename then
      let s3a := filename :: s3
      match create_integrity_hash_file h w fs file_path with
      | .error e => .error (e, fs, s3a)
      | .ok (fs1, hash_filepath) =>
        match lookupFS fs1 (real_path ++ hashExt) with
        | none => .error (.ioError, fs1, s3a)
        | some _ =>
          if up (filename ++ hashExt) then
            .ok (removeFS fs1 hash_filepath, (filename ++ hashExt) :: s3a)
          else
            .error (.transferError, fs1, s3a)
    else
      .error (.transferError, fs, s3)

/-- The loop body of S3FileUploader.upload_dir_contents: process the files in
walk order, incrementing `files_uploaded` after each item; there is no
`try` around the body, so the first exception aborts the loop and
propagates. -/
def upload_dir_contents_go (h : HashFn) (up w : Path → Bool) :
    FS → S3Keys → Nat → List Path → Except (PyExc × FS × S3Keys) (Nat × FS × S3Keys)
  | fs, s3, files_uploaded, [] => .ok (files_uploaded, fs, s3)
  | fs, s3, files_uploaded, file_path :: rest =>
    match _upload_file_to_s3_bucket h up w fs s3 file_path with
    | .error e => .error e
    | .ok (fs', s3') => upload_dir_contents_go h up w fs' s3' (files_uploaded + 1) rest

/-- S3FileUploader.upload_dir_contents: `files` is the list of
`subdir + os.sep + filename` paths that `os.walk` enumerates, in walk
order. -/
def upload_dir_contents (h : HashFn) (up w : Path → Bool) (fs : FS) (s3 : S3Keys)
    (files : List Path) : Except (PyExc × FS × S3Keys) (Nat × FS × S3Keys) :=
  upload_dir_contents_go h up w fs s3 0 files

/-! ### download_S3_bucket.S3FileDownloader -/

/-- The extension part of `os.path.splitext` on a basename: the suffix from
the last dot, provided some earlier character of the basename is not a dot
(CPython's leading-dot rule). -/
def afterLastDot? : Path → Option Path
  | [] => none
  | c :: cs =>
    match afterLastDot? cs with
    | some e => some e
    | none => if c = '.' then some (c :: cs) else none

/-- os.path.splitext's extension for a full path. -/
def extOfPath (p : Path) : Path :=
  match afterLastDot? ((takeAfterLastSlash p).dropWhile (fun c => c = '.')) with
  | some e => e
  | none => []

/-- Whether `os.path.splitext(p)[1] == ".hash"`, the downloader's test for
classifying a fetched file as an integrity artifact. -/
def isHashPath (p : Path) : Bool := extOfPath p = hashExt

/-- The loop of S3FileDownloader._download_all_files: fetch every listed key
into the destination directory (a failed transfer raises and aborts),
increment `files_downloaded`, and collect the fetched paths whose extension
is `.hash` into `self.hash_files`. -/
def download_go (dl : Path → Bool) (dir_path : Path) :
    Nat → List Path → List Path → Except PyExc (Nat × List Path)
  | files_downloaded, hash_files, [] => .ok (files_downloaded, hash_files)
  | files_downloaded, hash_files, file :: rest =>
    let full_file_path := pathJoin dir_path file
    if dl file then
      let hash_files' :=
        if isHashPath full_file_path then hash_files ++ [full_file_path] else hash_files
      download_go dl dir_path (files_downloaded + 1) hash_files' rest
    else
      .error .transferError

/-- S3FileDownloader._download_all_files: list the bucket (`bucket_files`),
`os.mkdir` the destination (an `IOError`/`FileExistsError` when it already
exists, before any fetch), then run the fetch loop.  Returns the count of
fetched files and the collected artifact paths. -/
def _download_all_files (dl : Path → Bool) (dirExists : Bool)
    (bucket_files : List Path) (dir_path : Path) : Except PyExc (Nat × List Path) :=
  if dirExists then .error .ioError
  else download_go dl dir_path 0 [] bucket_files

/-- S3FileDownloader.download_all_files: download into `./<bucket_name>`. -/
def download_all_files (dl : Path → Bool) (dirExists : Bool)
    (bucket_files : List Path) (bucket_name : Path) : Except PyExc (Nat × List Path) :=
  _download_all_files dl dirExists bucket_files bucket_name

/-- S3FileDownloader.download_all_files_into_dir: download into
`os.path.join(dir_path, bucket_name)`. -/
def download_all_files_into_dir (dl : Path → Bool) (dirExists : Bool)
    (bucket_files : List Path) (dir_path bucket_name : Path) :
    Except PyExc (Nat × List Path) :=
  _download_all_files dl dirExists bucket_files (pathJoin dir_path bucket_name)

/-- The loop of S3FileDownloader.verify_hashes, with the two counters: a
verified artifact is `os.remove`d and increments `verified_count`, a failed
one is left in place and increments `failed_count`; an exception from
`verify_integrity_hash_file` is not caught and aborts the loop. -/
def verify_hashes_go (h : HashFn) :
    FS → Nat → Nat → List Path → Except PyExc (Nat × Nat × FS)
  | fs, verified_count, failed_count, [] => .ok (verified_count, failed_count, fs)
  | fs, verified_count, failed_count, hash_filename :: rest =>
    match verify_integrity_hash_file h fs hash_filename with
    | .error e => .error e
    | .ok true =>
      verify_hashes_go h (removeFS fs hash_filename) (verified_count + 1) failed_count rest
    | .ok false =>
      verify_hashes_go h fs verified_count (failed_count + 1) rest

/-- S3FileDownloader.verify_hashes: run the loop over `self.hash_files` and
return `verified_count == len(self.hash_files)` together with the final
filesystem. -/
def verify_hashes (h : HashFn) (fs : FS) (hash_files : List Path) :
    Except PyExc (Bool × FS) :=
  match verify_hashes_go h fs 0 0 hash_files with
  | .error e => .error e
  | .ok (verified_count, _, fs') => .ok (decide (verified_count = hash_files.length), fs')

/-- Specification-side reference run for `verify_hashes`, written from the
spec's wording: verify every collected artifact in order, record the
per-artifact outcome, delete an artifact exactly when it verified and leave
it in place when it failed.  `verify_hashes` is proved to refine this. -/
def verify_hashes_spec (h : HashFn) : FS → List Path → Except PyExc (List Bool × FS)
  | fs, [] => .ok ([], fs)
  | fs, f :: rest =>
    match verify_integrity_hash_file h fs f with
    | .error e => .error e
    | .ok b =>
      match verify_hashes_spec h (if b then removeFS fs f else fs) rest with
      | .error e => .error e
      | .ok (outcomes, fs') => .ok (b :: outcomes, fs')

/-! ### Concrete instances used by witnesses and counterexamples -/

/-- A concrete digest function for witnesses and counterexamples: like a
blake2b hexdigest, its output consists of lowercase hex characters only (a
constant digest is enough, since no settled claim depends on collision
behaviour). -/
def hexConstHash : HashFn := fun _ => ['a', 'b']

/-- A filesystem in which every write succeeds. -/
def allWritable : Path → Bool := fun _ => true

/-- A network in which every transfer succeeds. -/
def allUp : Path → Bool := fun _ => true

instance {ε α : Type} [DecidableEq ε] [DecidableEq α] : DecidableEq (Except ε α) :=
  fun x y =>
    match x, y with
    | .ok a, .ok b =>
      if h : a = b then .isTrue (by rw [h]) else
        .isFalse (by intro hc; injection hc; exact h (by assumption))
    | .error a, .error b =>
      if h : a = b then .isTrue (by rw [h]) else
        .isFalse (by intro hc; injection hc; exact h (by assumption))
    | .ok _, .error _ => .isFalse (by intro hc; injection hc)
    | .error _, .ok _ => .isFalse (by intro hc; injection hc)

/-! ### Helper lemmas about the filesystem and string helpers -/

theorem lookupFS_writeFS_self (fs : FS) (p v : Path) :
    lookupFS (writeFS fs p v) p = some v := by
  simp [writeFS, lookupFS]

theorem lookupFS_writeFS_ne (fs : FS) (p q v : Path) (h : p ≠ q) :
    lookupFS (writeFS fs p v) q = lookupFS fs q := by
  simp [writeFS, lookupFS, h]

theorem readline_of_not_mem : ∀ {l : Path}, '\n' ∉ l → readline l = l
  | [], _ => rfl
  | c :: cs, h => by
    have hc : ¬(c = '\n') := fun hh => h (hh ▸ List.mem_cons_self c cs)
    have hcs : '\n' ∉ cs := fun hh => h (List.mem_cons_of_mem c hh)
    simp [readline, hc, readline_of_not_mem hcs]

theorem splitOnChar_of_not_mem {sep : Char} :
    ∀ {l : Path}, sep ∉ l → splitOnChar sep l = [l]
  | [], _ => rfl
  | c :: cs, h => by
    have hc : ¬(c = sep) := fun hh => h (hh ▸ List.mem_cons_self c cs)
    have hcs : sep ∉ cs := fun hh => h (List.mem_cons_of_mem c hh)
    simp [splitOnChar, splitOnChar_of_not_mem hcs, hc]

theorem splitOnChar_append {sep : Char} :
    ∀ {x : Path} {y : Path}, sep ∉ x → sep ∉ y →
      splitOnChar sep (x ++ sep :: y) = [x, y]
  | [], y, _, hy => by
    simp [splitOnChar, splitOnChar_of_not_mem hy]
  | c :: cs, y, hx, hy => by
    have hc : ¬(c = sep) := fun hh => hx (hh ▸ List.mem_cons_self c cs)
    have hcs : sep ∉ cs := fun hh => hx (List.mem_cons_of_mem c hh)
    simp [splitOnChar, splitOnChar_append hcs hy, hc]

theorem takeWhile_append_stop {p : Char → Bool} :
    ∀ {u : Path} {w : Char} {v : Path}, (∀ c ∈ u, p c = true) → p w = false →
      List.takeWhile p (u ++ w :: v) = u
  | [], w, v, _, hw => by simp [List.takeWhile_cons, hw]
  | c :: cs, w, v, hu, hw => by
    have hc : p c = true := hu c (List.mem_cons_self c cs)
    have hcs : ∀ a ∈ cs, p a = true := fun a ha => hu a (List.mem_cons_of_mem c ha)
    simp [List.takeWhile_cons, hc, takeWhile_append_stop hcs hw]

theorem dropWhile_append_stop {p : Char → Bool} :
    ∀ {u : Path} {w : Char} {v : Path}, (∀ c ∈ u, p c = true) → p w = false →
      List.dropWhile p (u ++ w :: v) = w :: v
  | [], w, v, _, hw => by simp [List.dropWhile_cons, hw]
  | c :: cs, w, v, hu, hw => by
    have hc : p c = true := hu c (List.mem_cons_self c cs)
    have hcs : ∀ a ∈ cs, p a = true := fun a ha => hu a (List.mem_cons_of_mem c ha)
    simp [List.dropWhile_cons, hc, dropWhile_append_stop hcs hw]

theorem takeAfterLastSlash_decomp {hd bn : Path} (hbn : '/' ∉ bn) :
    takeAfterLastSlash (hd ++ '/' :: bn) = bn := by
  unfold takeAfterLastSlash
  have hrev : (hd ++ '/' :: bn).reverse = bn.reverse ++ '/' :: hd.reverse := by
    simp [List.reverse_append]
  rw [hrev, takeWhile_append_stop (p := fun c => c ≠ '/')
    (fun c hc => by
      have hcb : c ∈ bn := List.mem_reverse.mp hc
      simp only [ne_eq, decide_eq_true_eq]
      exact fun hh => hbn (hh ▸ hcb))
    (by simp), List.reverse_reverse]

theorem rawHead_decomp {hd bn : Path} (hbn : '/' ∉ bn) :
    rawHead (hd ++ '/' :: bn) = hd ++ ['/'] := by
  unfold rawHead
  have hrev : (hd ++ '/' :: bn).reverse = bn.reverse ++ '/' :: hd.reverse := by
    simp [List.reverse_append]
  rw [hrev, dropWhile_append_stop (p := fun c => c ≠ '/')
    (fun c hc => by
      have hcb : c ∈ bn := List.mem_reverse.mp hc
      simp only [ne_eq, decide_eq_true_eq]
      exact fun hh => hbn (hh ▸ hcb))
    (by simp)]
  simp

theorem dirname_decomp {hd bn : Path} (hbn : '/' ∉ bn)
    (hhd : hd = [] ∨ hd.getLast? ≠ some '/') :
    dirname (hd ++ '/' :: bn) = if hd = [] then ['/'] else hd := by
  unfold dirname
  rw [rawHead_decomp hbn]
  by_cases h0 : hd = []
  · subst h0; simp
  · have hlast : hd.getLast? ≠ some '/' := hhd.resolve_left h0
    have hne : hd ++ ['/'] ≠ [] := by simp
    cases hrev : hd.reverse with
    | nil => exact absurd (List.reverse_eq_nil_iff.mp hrev) h0
    | cons c t =>
      have hc : c ≠ '/' := by
        have : hd.getLast? = some c := by
          rw [List.getLast?_eq_head?_reverse, hrev]; rfl
        intro hcc
        exact hlast (by rw [this, hcc])
      have hany : (hd ++ ['/']).any (fun c => c ≠ '/') = true := by
        rw [List.any_eq_true]
        refine ⟨c, ?_, by simp [hc]⟩
        have : c ∈ hd.reverse := by rw [hrev]; exact List.mem_cons_self c t
        exact List.mem_append.mpr (Or.inl (List.mem_reverse.mp this))
      rw [if_pos ⟨hne, hany⟩, show (hd ++ ['/']).reverse = '/' :: hd.reverse by simp,
          List.dropWhile_cons, if_pos (by simp), hrev, List.dropWhile_cons,
          if_neg (by simp [hc]), ← hrev, List.reverse_reverse, if_neg h0]

theorem pathJoin_dirname_basename {hd bn : Path} (hbn_ne : bn ≠ []) (hbn : '/' ∉ bn)
    (hhd : hd = [] ∨ hd.getLast? ≠ some '/') :
    pathJoin (if hd = [] then ['/'] else hd) bn = hd ++ '/' :: bn := by
  have hhead : bn.head? ≠ some '/' := by
    cases bn with
    | nil => exact absurd rfl hbn_ne
    | cons c t =>
      intro hc
      injection hc with hc
      exact hbn (hc ▸ List.mem_cons_self c t)
  by_cases h0 : hd = []
  · subst h0
    simp only [if_pos rfl]
    unfold pathJoin
    rw [if_neg hhead, if_pos (Or.inr (by rfl))]
    rfl
  · have hlast : hd.getLast? ≠ some '/' := hhd.resolve_left h0
    rw [if_neg h0]
    unfold pathJoin
    rw [if_neg hhead, if_neg (by
      rintro (hc | hc)
      · exact h0 hc
      · exact hlast hc)]

/-! ### Claim C1: round-trip of writeArtifact and verifyArtifact -/

/-- A normalized absolute file path split at its last slash, as
`os.path.realpath` produces: directory part with no trailing slash, nonempty
slash-free basename. -/
def normFilePath (hd bn : Path) : Path := hd ++ '/' :: bn

theorem create_integrity_hash_file_eq (h : HashFn) (w : Path → Bool) (fs : FS)
    {hd bn d : Path}
    (hbn : '/' ∉ bn)
    (hfile : lookupFS fs (normFilePath hd bn) = some d)
    (hw : w (normFilePath hd bn ++ hashExt) = true) :
    create_integrity_hash_file h w fs (normFilePath hd bn) =
      .ok (writeFS fs (normFilePath hd bn ++ hashExt) (bn ++ HASHFILE_PART_SEP :: h d),
           normFilePath hd bn ++ hashExt) := by
  unfold normFilePath at hfile hw ⊢
  simp only [create_integrity_hash_file, get_hash, hfile, basename,
    takeAfterLastSlash_decomp hbn, hw, if_true]

/-- C1 (amended): for a file at a normalized absolute path whose basename
contains neither the separator `:` nor a newline (and a digest of lowercase
hex characters, as blake2b hexdigests are), verifying the artifact written by
`create_integrity_hash_file`, with neither file mutated in between, returns
`true`. -/
theorem c1_roundtrip_amended (h : HashFn) (w : Path → Bool) (fs : FS)
    (hd bn d : Path) (fs' : FS) (ap : Path)
    (hbn_ne : bn ≠ []) (hbn_slash : '/' ∉ bn)
    (hhd : hd = [] ∨ hd.getLast? ≠ some '/')
    (hfile : lookupFS fs (normFilePath hd bn) = some d)
    (hw : w (normFilePath hd bn ++ hashExt) = true)
    (hsep_bn : ':' ∉ bn) (hnl_bn : '\n' ∉ bn)
    (hsep_h : ':' ∉ h d) (hnl_h : '\n' ∉ h d)
    (hcreate : create_integrity_hash_file h w fs (normFilePath hd bn) = .ok (fs', ap)) :
    verify_integrity_hash_file h fs' ap = .ok true := by
  rw [create_integrity_hash_file_eq h w fs hbn_slash hfile hw] at hcreate
  injection hcreate with hpair
  have hfs' : fs' = writeFS fs (normFilePath hd bn ++ hashExt)
      (bn ++ HASHFILE_PART_SEP :: h d) := ((Prod.mk.injEq _ _ _ _).mp hpair).1.symm
  have hap : ap = normFilePath hd bn ++ hashExt := ((Prod.mk.injEq _ _ _ _).mp hpair).2.symm
  subst hfs'; subst hap
  have hsep : HASHFILE_PART_SEP = ':' := rfl
  have hnoslash_ext : '/' ∉ hashExt := by decide
  have hbnext : '/' ∉ bn ++ hashExt := by
    intro hmem
    rcases List.mem_append.mp hmem with hm | hm
    · exact hbn_slash hm
    · exact hnoslash_ext hm
  have hAP : normFilePath hd bn ++ hashExt = normFilePath hd (bn ++ hashExt) := by
    simp [normFilePath]
  have hnl_content : '\n' ∉ bn ++ HASHFILE_PART_SEP :: h d := by
    intro hmem
    rcases List.mem_append.mp hmem with hm | hm
    · exact hnl_bn hm
    · rcases List.mem_cons.mp hm with hm | hm
      · exact absurd hm.symm (by rw [hsep]; decide)
      · exact hnl_h hm
  have hsplit : splitOnChar HASHFILE_PART_SEP
      (readline (bn ++ HASHFILE_PART_SEP :: h d)) = [bn, h d] := by
    rw [readline_of_not_mem hnl_content, hsep]
    exact splitOnChar_append hsep_bn hsep_h
  have hne_paths : normFilePath hd bn ++ hashExt ≠ normFilePath hd bn := by
    intro heq
    have := congrArg List.length heq
    simp [hashExt] at this
  have hdirname : dirname (normFilePath hd bn ++ hashExt) =
      if hd = [] then ['/'] else hd := by
    rw [hAP]
    exact dirname_decomp hbnext hhd
  have hjoin : pathJoin (dirname (normFilePath hd bn ++ hashExt)) bn =
      normFilePath hd bn := by
    rw [hdirname]
    exact pathJoin_dirname_basename hbn_ne hbn_slash hhd
  simp only [verify_integrity_hash_file, lookupFS_writeFS_self, hsplit, hjoin,
    verify_hash, get_hash, lookupFS_writeFS_ne _ _ _ _ hne_paths, hfile]
  simp

/-- Witness for C1 (amended): a concrete round-trip on the file `/d/f` whose
basename is separator-free returns `true`. -/
theorem c1_roundtrip_amended_witness :
    create_integrity_hash_file hexConstHash allWritable [("/d/f".data, "xyz".data)]
        (normFilePath "/d".data "f".data) =
      .ok (writeFS [("/d/f".data, "xyz".data)] (normFilePath "/d".data "f".data ++ hashExt)
            ("f".data ++ HASHFILE_PART_SEP :: hexConstHash "xyz".data),
           normFilePath "/d".data "f".data ++ hashExt) ∧
    verify_integrity_hash_file hexConstHash
      (writeFS [("/d/f".data, "xyz".data)] (normFilePath "/d".data "f".data ++ hashExt)
        ("f".data ++ HASHFILE_PART_SEP :: hexConstHash "xyz".data))
      (normFilePath "/d".data "f".data ++ hashExt) = .ok true :=
  ⟨by decide,
   c1_roundtrip_amended hexConstHash allWritable [("/d/f".data, "xyz".data)]
     "/d".data "f".data "xyz".data
     (writeFS [("/d/f".data, "xyz".data)] (normFilePath "/d".data "f".data ++ hashExt)
       ("f".data ++ HASHFILE_PART_SEP :: hexConstHash "xyz".data))
     (normFilePath "/d".data "f".data ++ hashExt)
     (by decide) (by decide) (by decide) (by decide) (by decide) (by decide) (by decide)
     (by decide) (by decide) (by decide)⟩

/-- Counterexample to C1 as stated: the existing, readable file `/d/a:b`
(legal POSIX name) round-trips to `false`, because the written artifact line
`a:b:<digest>` splits into three fields on the single-character separator.
The failure is digest-independent: any digest made of hex characters gives a
field count of three here. -/
theorem c1_roundtrip_counterexample :
    create_integrity_hash_file hexConstHash allWritable [("/d/a:b".data, "xyz".data)]
        "/d/a:b".data =
      .ok (writeFS [("/d/a:b".data, "xyz".data)] "/d/a:b.hash".data
             ("a:b".data ++ HASHFILE_PART_SEP :: hexConstHash "xyz".data),
           "/d/a:b.hash".data) ∧
    verify_integrity_hash_file hexConstHash
      (writeFS [("/d/a:b".data, "xyz".data)] "/d/a:b.hash".data
        ("a:b".data ++ HASHFILE_PART_SEP :: hexConstHash "xyz".data))
      "/d/a:b.hash".data = .ok false := by
  constructor
  · decide
  · decide

/-! ### Claim C4: malformed artifacts return false without raising -/

/-- C4: for every existing artifact file whose single line splits on the
separator into a number of fields different from two,
`verify_integrity_hash_file` returns `false` as an ordinary `.ok` result —
no exception is raised. -/
theorem c4_malformed_artifact (h : HashFn) (fs : FS) (ap content : Path)
    (hlook : lookupFS fs ap = some content)
    (hparts : (splitOnChar HASHFILE_PART_SEP (readline content)).length ≠ 2) :
    verify_integrity_hash_file h fs ap = .ok false := by
  simp only [verify_integrity_hash_file, hlook]
  split
  next p0 p1 heq => exact absurd (by simp [heq]) hparts
  next => rfl

/-- Witness for C4: an artifact with no separator at all yields `.ok false`. -/
theorem c4_malformed_artifact_witness :
    verify_integrity_hash_file hexConstHash [("/d/x.hash".data, "nosep".data)]
      "/d/x.hash".data = .ok false :=
  c4_malformed_artifact hexConstHash [("/d/x.hash".data, "nosep".data)]
    "/d/x.hash".data "nosep".data (by decide) (by decide)

/-! ### Claim C5: behaviour when the artifact cannot be written -/

/-- Counterexample to C5 as stated: with a filesystem refusing every write,
`create_integrity_hash_file` on the readable file `/d/f` does not fail with
an `IOError` — the bare `except:` swallows the write failure and the call
returns `.ok` with the empty artifact path. -/
theorem c5_swallow_counterexample :
    create_integrity_hash_file hexConstHash (fun _ => false)
        [("/d/f".data, "xyz".data)] "/d/f".data =
      .ok ([("/d/f".data, "xyz".data)], []) ∧
    create_integrity_hash_file hexConstHash (fun _ => false)
        [("/d/f".data, "xyz".data)] "/d/f".data ≠ .error .ioError := by
  constructor
  · decide
  · decide

/-- C5 (amended): whenever the artifact file cannot be written,
`create_integrity_hash_file` catches the exception, reports it, and returns
the empty string with the filesystem unchanged; no `IOError` propagates. -/
theorem c5_swallow_amended (h : HashFn) (w : Path → Bool) (fs : FS) (p d : Path)
    (hfile : lookupFS fs p = some d)
    (hw : w (p ++ hashExt) = false) :
    create_integrity_hash_file h w fs p = .ok (fs, []) := by
  simp only [create_integrity_hash_file, get_hash, hfile, hw]
  simp

/-- Witness for C5 (amended) at a concrete unwritable filesystem. -/
theorem c5_swallow_amended_witness :
    create_integrity_hash_file hexConstHash (fun _ => false)
        [("/e/g".data, "pq".data)] "/e/g".data = .ok ([("/e/g".data, "pq".data)], []) :=
  c5_swallow_amended hexConstHash (fun _ => false) [("/e/g".data, "pq".data)]
    "/e/g".data "pq".data (by decide) (by decide)

/-! ### Claim C9: a missing data file raises IOError and aborts verify_hashes -/

/-- C9: when a well-formed artifact names a data file that does not exist,
`verify_integrity_hash_file` raises `IOError` instead of returning `false`,
and the exception propagates out of `verify_hashes`, aborting the whole
verification pass. -/
theorem c9_missing_data_aborts (h : HashFn) (fs : FS) (ap content p0 p1 : Path)
    (hlook : lookupFS fs ap = some content)
    (hsplit : splitOnChar HASHFILE_PART_SEP (readline content) = [p0, p1])
    (hmiss : lookupFS fs (pathJoin (dirname ap) p0) = none) :
    verify_integrity_hash_file h fs ap = .error .ioError ∧
    ∀ rest, verify_hashes h fs (ap :: rest) = .error .ioError := by
  have hv : verify_integrity_hash_file h fs ap = .error .ioError := by
    simp only [verify_integrity_hash_file, hlook, hsplit, verify_hash, get_hash, hmiss]
  refine ⟨hv, fun rest => ?_⟩
  simp only [verify_hashes, verify_hashes_go, hv]

/-- Witness for C9: the artifact `/d/g.hash` records `g:ab` but `/d/g` is
absent, so the whole two-artifact verification pass errors out. -/
theorem c9_missing_data_aborts_witness :
    verify_hashes hexConstHash [("/d/g.hash".data, "g:ab".data)]
      ["/d/g.hash".data, "/d/other.hash".data] = .error .ioError :=
  (c9_missing_data_aborts hexConstHash [("/d/g.hash".data, "g:ab".data)]
    "/d/g.hash".data "g:ab".data "g".data "ab".data
    (by decide) (by decide) (by decide)).2 ["/d/other.hash".data]

/-! ### Claim C6: the existence probe and error propagation -/

/-- Counterexample to C6 as stated: when the probe raises an exception that
is not a `botocore.exceptions.ClientError` — e.g. a connection-level
`EndpointConnectionError`, which is a `BotoCoreError` — `check_bucket`
returns no boolean at all: the exception propagates to the caller. -/
theorem c6_probe_counterexample :
    check_bucket .otherExc ≠ .ok true ∧
    check_bucket .otherExc ≠ .ok false ∧
    check_bucket .otherExc = .error .nonClientError := by
  refine ⟨?_, ?_, rfl⟩
  · intro hc; cases hc
  · intro hc; cases hc

/-- C6 (amended): `check_bucket` returns `false` exactly when the probe
raises a `ClientError` (the class that conflates permission errors with
absence), `true` exactly on a successful probe, and lets an exception of any
other class propagate. -/
theorem c6_probe_amended (r : ProbeResult) :
    (check_bucket r = .ok false ↔ r = .clientError) ∧
    (check_bucket r = .ok true ↔ r = .success) ∧
    (check_bucket r = .error .nonClientError ↔ r = .otherExc) := by
  cases r <;> simp [check_bucket]

/-! ### Claim C8: the LocationConstraint of the CreateBucket request -/

/-- Counterexample to C8 as stated: the empty string is a given region that
differs from us-east-1, yet, being falsy in the Python guard
`region and (region != US_EAST1)`, it produces a request without a
`LocationConstraint`. -/
theorem c8_location_counterexample :
    create_bucket "bkt" (some "") = some { bucket := "bkt", locationConstraint := none } ∧
    (some "" : Option String) ≠ none ∧ ("" : String) ≠ US_EAST1 := by
  refine ⟨by decide, by decide, by decide⟩

/-- C8 (amended): for a nonempty bucket name the request is built, and it
carries a `LocationConstraint` if and only if a nonempty region string was
given that differs from us-east-1 — the constraint then being exactly that
region; with an absent, empty, or us-east-1 region the constraint is
omitted. -/
theorem c8_location_amended (name : String) (region : Option String)
    (hname : name ≠ "") :
    (∃ req, create_bucket name region = some req) ∧
    ∀ req, create_bucket name region = some req →
      (req.locationConstraint.isSome ↔
        ∃ r, region = some r ∧ r ≠ "" ∧ r ≠ US_EAST1) ∧
      (req.locationConstraint.isSome → req.locationConstraint = region) := by
  have hlen : name.length > 0 := by
    cases name with
    | mk data =>
      cases data with
      | nil => simp at hname
      | cons c cs => simp [String.length]
  unfold create_bucket
  rw [if_pos hlen]
  cases region with
  | none =>
    refine ⟨⟨_, rfl⟩, fun req hreq => ?_⟩
    injection hreq with hreq
    subst hreq
    constructor
    · simp
    · simp
  | some r =>
    have hred : ((match some r with
        | some r =>
          if r ≠ "" ∧ r ≠ US_EAST1 then
            some { bucket := name, locationConstraint := some r }
          else some { bucket := name, locationConstraint := none }
        | none =>
          some { bucket := name, locationConstraint := none }) :
          Option CreateBucketRequest) =
        ((if r ≠ "" ∧ r ≠ US_EAST1 then
          some { bucket := name, locationConstraint := some r }
        else some { bucket := name, locationConstraint := none }) :
          Option CreateBucketRequest) := rfl
    rw [hred]
    by_cases hr : r ≠ "" ∧ r ≠ US_EAST1
    · rw [if_pos hr]
      refine ⟨⟨_, rfl⟩, fun req hreq => ?_⟩
      injection hreq with hreq
      subst hreq
      refine ⟨⟨fun _ => ⟨r, rfl, hr.1, hr.2⟩, fun _ => rfl⟩, fun _ => rfl⟩
    · rw [if_neg hr]
      refine ⟨⟨_, rfl⟩, fun req hreq => ?_⟩
      injection hreq with hreq
      subst hreq
      constructor
      · simp only [Option.isSome_none]
        constructor
        · intro hc; cases hc
        · rintro ⟨r', hr', hne, hne2⟩
          injection hr' with hr'
          exact absurd ⟨hr' ▸ hne, hr' ▸ hne2⟩ hr
      · intro hc; cases hc

/-- Witness for C8 (amended) at a nonempty non-default region. -/
theorem c8_location_amended_witness :
    (∃ req, create_bucket "bkt" (some "eu-west-1") = some req) ∧
    ∀ req, create_bucket "bkt" (some "eu-west-1") = some req →
      (req.locationConstraint.isSome ↔
        ∃ r, (some "eu-west-1" : Option String) = some r ∧ r ≠ "" ∧ r ≠ US_EAST1) ∧
      (req.locationConstraint.isSome → req.locationConstraint = some "eu-west-1") :=
  c8_location_amended "bkt" (some "eu-west-1") (by decide)

/-! ### Claims C2 and C3: upload batch accounting and abort behaviour -/

theorem upload_file_ok (h : HashFn) (up w : Path → Bool) (fs : FS) (s3 : S3Keys)
    (f : Path) (fs' : FS) (s3' : S3Keys)
    (hok : _upload_file_to_s3_bucket h up w fs s3 f = .ok (fs', s3')) :
    basename f ∈ s3' ∧ ∀ k ∈ s3, k ∈ s3' := by
  simp only [_upload_file_to_s3_bucket] at hok
  split at hok
  · cases hok
  · split at hok
    · split at hok
      · cases hok
      · split at hok
        · cases hok
        · split at hok
          · injection hok with hpair
            have hs3 : (basename f ++ hashExt) :: basename f :: s3 = s3' :=
              ((Prod.mk.injEq _ _ _ _).mp hpair).2
            subst hs3
            exact ⟨List.mem_cons_of_mem _ (List.mem_cons_self _ _),
              fun k hk => List.mem_cons_of_mem _ (List.mem_cons_of_mem _ hk)⟩
          · cases hok
    · cases hok

theorem upload_dir_go_ok (h : HashFn) (up w : Path → Bool) :
    ∀ (files : List Path) (fs : FS) (s3 : S3Keys) (n m : Nat) (fs' : FS) (s3' : S3Keys),
      upload_dir_contents_go h up w fs s3 n files = .ok (m, fs', s3') →
      m = n + files.length ∧ (∀ k ∈ s3, k ∈ s3') ∧ ∀ f ∈ files, basename f ∈ s3'
  | [], fs, s3, n, m, fs', s3', hok => by
    simp only [upload_dir_contents_go] at hok
    injection hok with hpair
    have hm : n = m := congrArg Prod.fst hpair
    have hs3 : s3 = s3' := congrArg (fun x => x.2.2) hpair
    subst hm; subst hs3
    exact ⟨by simp, fun k hk => hk, by simp⟩
  | f :: rest, fs, s3, n, m, fs', s3', hok => by
    simp only [upload_dir_contents_go] at hok
    cases hitem : _upload_file_to_s3_bucket h up w fs s3 f with
    | error e => rw [hitem] at hok; cases hok
    | ok pr =>
      obtain ⟨fs1, s31⟩ := pr
      rw [hitem] at hok
      obtain ⟨hm, hmono, hall⟩ := upload_dir_go_ok h up w rest fs1 s31 (n + 1) m fs' s3' hok
      obtain ⟨hbase, hmono1⟩ := upload_file_ok h up w fs s3 f fs1 s31 hitem
      refine ⟨by simp [hm]; omega, fun k hk => hmono k (hmono1 k hk), ?_⟩
      intro g hg
      rcases List.mem_cons.mp hg with hg | hg
      · subst hg; exact hmono _ hbase
      · exact hall g hg

/-- C2: whenever `upload_dir_contents` returns a count, that count equals the
number of files enumerated in the directory, and every one of those files had
its data object stored into the bucket (its basename key is present).  A
data-transfer failure never yields a smaller count: it raises instead (see
the C3 theorems), so a returned count is exactly the number of successfully
stored data objects. -/
theorem c2_upload_count (h : HashFn) (up w : Path → Bool) (fs : FS) (s3 : S3Keys)
    (files : List Path) (n : Nat) (fs' : FS) (s3' : S3Keys)
    (hok : upload_dir_contents h up w fs s3 files = .ok (n, fs', s3')) :
    n = files.length ∧ ∀ f ∈ files, basename f ∈ s3' := by
  obtain ⟨hm, _, hall⟩ := upload_dir_go_ok h up w files fs s3 0 n fs' s3' hok
  exact ⟨by simpa using hm, hall⟩

/-- Witness for C2: a concrete two-file batch returns count 2 with both data
objects stored. -/
theorem c2_upload_count_witness :
    (2 : Nat) = (["/d/f1".data, "/d/f2".data] : List Path).length ∧
    ∀ f ∈ (["/d/f1".data, "/d/f2".data] : List Path), basename f ∈
      (["f2.hash".data, "f2".data, "f1.hash".data, "f1".data] : S3Keys) :=
  c2_upload_count hexConstHash allUp allWritable
    [("/d/f1".data, "1".data), ("/d/f2".data, "2".data)] []
    ["/d/f1".data, "/d/f2".data] 2
    [("/d/f1".data, "1".data), ("/d/f2".data, "2".data)]
    ["f2.hash".data, "f2".data, "f1.hash".data, "f1".data]
    (by decide)

/-- Counterexample to C3 as stated: when the data transfer of the first item
fails, `upload_dir_contents` raises instead of recording the failure and
moving on — the run ends in an error whose bucket state is empty, so the
remaining item `/d/f2` was never processed and no count is returned. -/
theorem c3_abort_counterexample :
    upload_dir_contents hexConstHash (fun k => k ≠ "f1".data) allWritable
      [("/d/f1".data, "1".data), ("/d/f2".data, "2".data)] []
      ["/d/f1".data, "/d/f2".data] =
      .error (.transferError,
        ([("/d/f1".data, "1".data), ("/d/f2".data, "2".data)], [])) := by
  decide

/-- C3 (amended): a failure of an item's data transfer or artifact upload is
not swallowed: the exception aborts the batch at that item, the remaining
items are not processed, and no count is returned.  (Only the artifact-write
failure inside `create_integrity_hash_file` and the artifact-deletion
failure are caught and merely reported.) -/
theorem c3_abort_amended (h : HashFn) (up w : Path → Bool) (fs : FS) (s3 : S3Keys)
    (f : Path) (rest : List Path) (e : PyExc) (st : FS × S3Keys)
    (hfail : _upload_file_to_s3_bucket h up w fs s3 f = .error (e, st)) :
    upload_dir_contents h up w fs s3 (f :: rest) = .error (e, st) := by
  simp only [upload_dir_contents, upload_dir_contents_go, hfail]

/-- Witness for C3 (amended): a failing artifact upload for the first item
aborts the whole batch with the second item untouched. -/
theorem c3_abort_amended_witness :
    upload_dir_contents hexConstHash (fun k => k ≠ "f1.hash".data) allWritable
      [("/d/f1".data, "1".data), ("/d/f2".data, "2".data)] []
      ["/d/f1".data, "/d/f2".data] =
      .error (.transferError,
        (writeFS [("/d/f1".data, "1".data), ("/d/f2".data, "2".data)]
          "/d/f1.hash".data ("f1".data ++ HASHFILE_PART_SEP :: hexConstHash "1".data),
         ["f1".data])) :=
  c3_abort_amended hexConstHash (fun k => k ≠ "f1.hash".data) allWritable
    [("/d/f1".data, "1".data), ("/d/f2".data, "2".data)] []
    "/d/f1".data ["/d/f2".data] .transferError
    (writeFS [("/d/f1".data, "1".data), ("/d/f2".data, "2".data)]
      "/d/f1.hash".data ("f1".data ++ HASHFILE_PART_SEP :: hexConstHash "1".data),
     ["f1".data])
    (by decide)

/-! ### Claim C7: verify_hashes aggregates and deletes correctly -/

theorem verify_hashes_go_spec (h : HashFn) :
    ∀ (files : List Path) (fs : FS) (outcomes : List Bool) (fs₂ : FS),
      verify_hashes_spec h fs files = .ok (outcomes, fs₂) →
      outcomes.length = files.length ∧
      ∀ v f, verify_hashes_go h fs v f files =
        .ok (v + outcomes.count true, f + outcomes.count false, fs₂)
  | [], fs, outcomes, fs₂, hspec => by
    simp only [verify_hashes_spec] at hspec
    injection hspec with hpair
    have ho : [] = outcomes := congrArg Prod.fst hpair
    have hf : fs = fs₂ := congrArg Prod.snd hpair
    subst ho; subst hf
    exact ⟨rfl, fun v f => by simp [verify_hashes_go]⟩
  | file :: rest, fs, outcomes, fs₂, hspec => by
    simp only [verify_hashes_spec] at hspec
    cases hb : verify_integrity_hash_file h fs file with
    | error e => rw [hb] at hspec; cases hspec
    | ok b =>
      rw [hb] at hspec
      have hspec2 :
          (match verify_hashes_spec h (if b = true then removeFS fs file else fs) rest with
            | .error e => (.error e : Except PyExc (List Bool × FS))
            | .ok (os, fs') => .ok (b :: os, fs')) = .ok (outcomes, fs₂) := hspec
      cases hrec : verify_hashes_spec h (if b = true then removeFS fs file else fs) rest with
      | error e => rw [hrec] at hspec2; injection hspec2
      | ok pr =>
        obtain ⟨os, fsr⟩ := pr
        rw [hrec] at hspec2
        injection hspec2 with hpair
        have ho : b :: os = outcomes := congrArg Prod.fst hpair
        have hf : fsr = fs₂ := congrArg Prod.snd hpair
        subst hf; subst ho
        obtain ⟨hlen, hgo⟩ :=
          verify_hashes_go_spec h rest (if b then removeFS fs file else fs) os fsr hrec
        refine ⟨by simp [hlen], fun v f => ?_⟩
        cases b
        · simp only [verify_hashes_go, hb]
          rw [show (if false = true then removeFS fs file else fs) = fs from rfl] at hgo
          rw [hgo v (f + 1)]
          have h1 : (false :: os).count true = os.count true := by simp
          have h2 : (false :: os).count false = os.count false + 1 := by simp
          have hadd : f + 1 + os.count false = f + (os.count false + 1) := by omega
          rw [h1, h2, hadd]
        · simp only [verify_hashes_go, hb]
          rw [show (if true = true then removeFS fs file else fs) = removeFS fs file
            from rfl] at hgo
          rw [hgo (v + 1) f]
          have h1 : (true :: os).count true = os.count true + 1 := by simp
          have h2 : (true :: os).count false = os.count false := by simp
          have hadd : v + 1 + os.count true = v + (os.count true + 1) := by omega
          rw [h1, h2, hadd]

/-- C7: `verify_hashes` refines the spec-side reference run
`verify_hashes_spec`, which verifies every collected artifact in order,
deletes exactly the artifacts that verify, and leaves failed ones in place:
whenever the reference run completes with per-artifact outcomes,
`verify_hashes` returns the same final filesystem together with `true` if and
only if every artifact verified, and there is one outcome per collected
artifact. -/
theorem c7_verify_hashes (h : HashFn) (fs : FS) (files : List Path)
    (outcomes : List Bool) (fs₂ : FS)
    (hspec : verify_hashes_spec h fs files = .ok (outcomes, fs₂)) :
    verify_hashes h fs files = .ok (outcomes.all id, fs₂) ∧
    outcomes.length = files.length := by
  obtain ⟨hlen, hgo⟩ := verify_hashes_go_spec h files fs outcomes fs₂ hspec
  have hgo0 := hgo 0 0
  simp only [verify_hashes, hgo0]
  refine ⟨?_, hlen⟩
  have hz : 0 + outcomes.count true = outcomes.count true := by omega
  rw [hz, ← hlen]
  cases hall : outcomes.all id
  · have hne : ¬(outcomes.count true = outcomes.length) := by
      intro hc
      have hmem := List.count_eq_length.mp hc
      have : outcomes.all id = true :=
        List.all_eq_true.mpr (fun b hb => (hmem b hb).symm)
      rw [hall] at this
      cases this
    simp [hne]
  · have heq : outcomes.count true = outcomes.length :=
      List.count_eq_length.mpr (fun b hb => ((List.all_eq_true.mp hall) b hb).symm)
    simp [heq]

/-- Witness for C7: one artifact verifies (and is deleted), one fails (and is
kept), and the aggregate result is `false`. -/
theorem c7_verify_hashes_witness :
    verify_hashes hexConstHash
      [("/d/a".data, "da".data), ("/d/a.hash".data, "a:ab".data),
       ("/d/b.hash".data, "junk".data)]
      ["/d/a.hash".data, "/d/b.hash".data] =
      .ok (([true, false] : List Bool).all id,
        [("/d/a".data, "da".data), ("/d/b.hash".data, "junk".data)]) ∧
    ([true, false] : List Bool).length =
      (["/d/a.hash".data, "/d/b.hash".data] : List Path).length :=
  c7_verify_hashes hexConstHash
    [("/d/a".data, "da".data), ("/d/a.hash".data, "a:ab".data),
     ("/d/b.hash".data, "junk".data)]
    ["/d/a.hash".data, "/d/b.hash".data] [true, false]
    [("/d/a".data, "da".data), ("/d/b.hash".data, "junk".data)]
    (by decide)

/-! ### Claim C10: the download count includes the .hash artifacts -/

theorem download_go_ok (dl : Path → Bool) (dir_path : Path) :
    ∀ (keys : List Path) (n : Nat) (hfs : List Path) (m : Nat) (hfs' : List Path),
      download_go dl dir_path n hfs keys = .ok (m, hfs') →
      m = n + keys.length ∧
      hfs' = hfs ++ (keys.filter (fun k => isHashPath (pathJoin dir_path k))).map
        (fun k => pathJoin dir_path k)
  | [], n, hfs, m, hfs', hok => by
    simp only [download_go] at hok
    injection hok with hpair
    have hm : n = m := congrArg Prod.fst hpair
    have hh : hfs = hfs' := congrArg Prod.snd hpair
    subst hm; subst hh
    simp
  | key :: rest, n, hfs, m, hfs', hok => by
    simp only [download_go] at hok
    split at hok
    · obtain ⟨hm, hrest⟩ := download_go_ok dl dir_path rest (n + 1) _ m hfs' hok
      refine ⟨by simp [hm]; omega, ?_⟩
      rw [hrest]
      cases hh : isHashPath (pathJoin dir_path key)
      · simp [List.filter_cons, hh]
      · simp [List.filter_cons, hh]
    · cases hok

/-- C10: for both `download_all_files` and `download_all_files_into_dir`, a
returned count equals the number of all listed keys — the `.hash` artifact
files are fetched, counted, and additionally collected: every fetched key,
artifact or data, increments the count by one. -/
theorem c10_download_count (dl : Path → Bool) (dirExists : Bool)
    (bucket_files : List Path) (bucket_name dir_path : Path) :
    (∀ n hfs, download_all_files dl dirExists bucket_files bucket_name = .ok (n, hfs) →
      n = bucket_files.length ∧
      hfs = (bucket_files.filter (fun k => isHashPath (pathJoin bucket_name k))).map
        (fun k => pathJoin bucket_name k)) ∧
    (∀ n hfs, download_all_files_into_dir dl dirExists bucket_files dir_path bucket_name
        = .ok (n, hfs) →
      n = bucket_files.length ∧
      hfs = (bucket_files.filter
          (fun k => isHashPath (pathJoin (pathJoin dir_path bucket_name) k))).map
        (fun k => pathJoin (pathJoin dir_path bucket_name) k)) := by
  constructor <;>
    · intro n hfs hok
      simp only [download_all_files, download_all_files_into_dir,
        _download_all_files] at hok
      split at hok
      · cases hok
      · obtain ⟨hm, hrest⟩ := download_go_ok _ _ bucket_files 0 [] n hfs hok
        exact ⟨by simpa using hm, by simpa using hrest⟩

/-- Witness for C10: a three-key bucket with two `.hash`-suffixed keys (one
of which, the bare `.hash`, is not classified as an artifact by `splitext`)
returns count 3. -/
theorem c10_download_count_witness :
    (3 : Nat) = (["k1".data, "k2.hash".data, ".hash".data] : List Path).length ∧
    (["bkt/k2.hash".data] : List Path) =
      ((["k1".data, "k2.hash".data, ".hash".data] : List Path).filter
        (fun k => isHashPath (pathJoin "bkt".data k))).map
        (fun k => pathJoin "bkt".data k) :=
  (c10_download_count allUp false ["k1".data, "k2.hash".data, ".hash".data]
    "bkt".data "x".data).1 3 ["bkt/k2.hash".data] (by decide)

end S3Toolkit
